import Mathlib

/-!
Verification of the document-to-findings pipeline of the ai-rag-assist
repository: chunking, regulation retrieval, the rule-based filtering engine,
issue aggregation and the analyze-submission entry point, shallowly embedded
from the TypeScript edge functions and the SQL similarity-search procedure.

Texts are modelled as `List Char`; the JavaScript regular expressions used by
the rule engine are literal alternations and simple character-class patterns,
embedded here as explicit scanners over character lists.  Numeric percentage
values are modelled as exact rationals (JS `parseFloat` of the short decimal
literals matched by the percent regex, followed by comparisons against the
decimal constants 99.5 and 100.5, is value-exact for the decimal magnitudes
involved here).
-/

namespace RagAssist

/-- The JS regex whitespace class `\s`, restricted to the ASCII whitespace
characters (space, tab, line feed, carriage return, vertical tab, form feed). -/
def jsWs (c : Char) : Bool :=
  c = ' ' || c = '\t' || c = '\n' || c = '\r' || c = '\x0b' || c = '\x0c'

/-- JS line terminators, which the regex `.` does not match. -/
def isLineTerm (c : Char) : Bool :=
  c = '\n' || c = '\r' || c.toNat = 0x2028 || c.toNat = 0x2029

/-- Boolean prefix test on character lists (`List.isPrefixOf`, restated so
that its equations unfold definitionally). -/
def listPrefix : List Char → List Char → Bool
  | [], _ => true
  | _ :: _, [] => false
  | a :: p, b :: l => a = b && listPrefix p l

/-- `sub` occurs as a contiguous substring of `s` (the JS `regex.test` of a
literal pattern, or `String.prototype.includes`). -/
def containsSub (sub s : List Char) : Bool :=
  s.tails.any (fun t => listPrefix sub t)

/-- Case-insensitive counterpart of `List.isPrefixOf` (JS `/i` flag; ASCII
case folding via `Char.toLower`). -/
def ciPrefixOf : List Char → List Char → Bool
  | [], _ => true
  | _ :: _, [] => false
  | a :: as, b :: bs => (a.toLower = b.toLower) && ciPrefixOf as bs

/-- Case-insensitive substring test (JS `/pat/i.test(s)` for a literal `pat`). -/
def containsCi (sub s : List Char) : Bool :=
  s.tails.any (fun t => ciPrefixOf sub t)

/-- There is a position in `s` at which the matcher `p` succeeds (a JS regex
`test` for a pattern embedded as the positional matcher `p`). -/
def existsMatch (p : List Char → Bool) (s : List Char) : Bool :=
  s.tails.any p

/-- `String.prototype.trim`, restricted to the modelled whitespace class. -/
def trimWs (s : List Char) : List Char :=
  ((s.dropWhile jsWs).reverse.dropWhile jsWs).reverse

/-- `text.split(/\s+/)`: JS split on runs of whitespace.  A leading run of
whitespace yields a leading empty token and a trailing run a trailing empty
token, exactly as in JS. -/
def splitWsGo : List Char → List Char → List (List Char)
  | [], cur => [cur.reverse]
  | c :: cs, cur =>
    if jsWs c then cur.reverse :: splitWsGo (cs.dropWhile jsWs) []
    else splitWsGo cs (c :: cur)
termination_by s _ => s.length
decreasing_by
  · have h : (cs.dropWhile jsWs).length ≤ cs.length := by
      induction cs with
      | nil => simp [List.dropWhile]
      | cons a l ih =>
        simp only [List.dropWhile]
        cases jsWs a
        · simp
        · simp
          omega
    simp only [List.length_cons]
    omega
  · simp [List.length_cons]

/-- `text.split(/\s+/)`. -/
def jsSplitWs (s : List Char) : List (List Char) :=
  splitWsGo s []

/-- `arr.join(' ')` on a list of character lists. -/
def joinSpace : List (List Char) → List Char
  | [] => []
  | [t] => t
  | t :: ts => t ++ ' ' :: joinSpace ts

/-- Whitespace normalization used to state the chunk round-trip property:
collapse every whitespace run to a single space and trim the ends (stated in
the spec as "normalizing whitespace"). -/
def normalizeWs (s : List Char) : List Char :=
  joinSpace ((jsSplitWs s).filter (fun t => !t.isEmpty))


/-! ### Rule-engine data model (analyze-submission/index.ts) -/

/-- Severity of an `AnalysisIssue` (TS union `'error' | 'warning' | 'info'`,
modelled without the quote marks as an enumeration). -/
inductive Severity where
  | error
  | warning
  | info
deriving DecidableEq, Repr

/-- Severity tier of a `RuleIssue` (TS union of high, medium, low). -/
inductive RuleSeverity where
  | high
  | medium
  | low
deriving DecidableEq, Repr

/-- A rule-based finding (interface `RuleIssue`). -/
structure RuleIssue where
  rule : String
  severity : RuleSeverity
  msg : String
  suggest : String
deriving DecidableEq, Repr

/-- An analysis issue (interface `AnalysisIssue`), restricted to the fields
populated by the rule-to-analysis conversion and consulted downstream. -/
structure AnalysisIssue where
  category : String
  severity : Severity
  title : String
  description : String
  location : Option String
  suggestion : Option String
  regulation : Option String
  regulation_highlight : Option String
  regulation_title : Option String
  regulation_category : Option String
  regulation_status : Option String
deriving DecidableEq, Repr

/-! ### ruleSterileConflict -/

/-- `/멸균/.test(text)` — the sterile marker. -/
def hasSterileB (text : List Char) : Bool :=
  containsSub "멸균".data text

/-- `/비멸균|무멸균/.test(text)` — the non-sterile markers. -/
def hasNonSterileB (text : List Char) : Bool :=
  containsSub "비멸균".data text || containsSub "무멸균".data text

def sterileConflictIssue : RuleIssue where
  rule := "의료기기법 시행규칙 제28조(제조허가 등)"
  severity := .high
  msg := "작용원리에 멸균/비멸균 문구가 혼재되어 있습니다. 실제 공급상태와 일치하도록 단일화 필요."
  suggest := "작용원리·라벨·IFU에서 \x27멸균\x27 또는 \x27비멸균\x27 하나로 통일하여 표기하고 관련 문구를 일괄 정정하세요."

/-- `ruleSterileConflict` from analyze-submission/index.ts (lines 58-75).
The empty string is falsy in JS, hence the leading guard. -/
def ruleSterileConflict (text : List Char) : List RuleIssue :=
  if text = [] then []
  else if hasSterileB text && hasNonSterileB text then [sterileConflictIssue]
  else []

/-! ### ruleUnits -/

/-- Positional matcher for `/단위\s*[:：]?\s*mm/i`. -/
def matchHeaderMmAt : List Char → Bool
  | '단' :: '위' :: rest =>
    let r1 := rest.dropWhile jsWs
    let r2 := match r1 with
      | ':' :: t => t
      | '：' :: t => t
      | _ => r1
    match r2.dropWhile jsWs with
    | c1 :: c2 :: _ => (c1.toLower = 'm') && (c2.toLower = 'm')
    | _ => false
  | _ => false

/-- Tail of `/\d+(\.\d+)?\s*(cm|㎝|m(?!m))/`: the unit alternation with the
negative lookahead on `m`. -/
def unitTailMatch : List Char → Bool
  | 'c' :: 'm' :: _ => true
  | '㎝' :: _ => true
  | 'm' :: 'm' :: _ => false
  | 'm' :: _ => true
  | _ => false

/-- Positional matcher for `/\d+(\.\d+)?\s*(cm|㎝|m(?!m))/` (greedy digits
and optional fraction; no backtracking is needed because the character classes
of the successive parts are disjoint). -/
def matchCmOrMAt (s : List Char) : Bool :=
  let ds := s.takeWhile Char.isDigit
  if ds.isEmpty then false
  else
    let r1 := s.drop ds.length
    let r2 := match r1 with
      | '.' :: t =>
        let fs := t.takeWhile Char.isDigit
        if fs.isEmpty then r1 else t.drop fs.length
      | _ => r1
    unitTailMatch (r2.dropWhile jsWs)

def unitsIssue : RuleIssue where
  rule := "의료기기 기술문서 등의 심사에 관한 규정 별표1"
  severity := .medium
  msg := "치수 표 상단은 mm로 표기되어 있으나 본문 값에 cm/m가 혼용되어 있습니다."
  suggest := "모든 치수를 mm로 환산하여 통일 기재하세요. 예) 2.5 cm → 25 mm, 1.8 m → 1800 mm."

/-- `ruleUnits` from analyze-submission/index.ts (lines 77-94). -/
def ruleUnits (text : List Char) : List RuleIssue :=
  if text = [] then []
  else if existsMatch matchHeaderMmAt text && existsMatch matchCmOrMAt text then [unitsIssue]
  else []

/-! ### ruleInstructions -/

/-- `(text.match(/pat/g) || []).length` for a literal pattern: the number of
non-overlapping occurrences, scanning left to right. -/
def countMatches (pat : List Char) : List Char → Nat
  | [] => 0
  | c :: cs =>
    if listPrefix pat (c :: cs) then
      1 + countMatches pat ((c :: cs).drop (max pat.length 1))
    else countMatches pat cs
termination_by s => s.length
decreasing_by
  · simp only [List.length_drop, List.length_cons]
    omega
  · simp

/-- Positional matcher for the second alternative of
`/일회용|재사용\s*금지/`. -/
def reuseBanAt (s : List Char) : Bool :=
  if listPrefix "재사용".data s then
    listPrefix "금지".data ((s.drop 3).dropWhile jsWs)
  else false

def hasSingleUseB (text : List Char) : Bool :=
  containsSub "일회용".data text || existsMatch reuseBanAt text

def confirmRedundancyIssue : RuleIssue where
  rule := "의료기기 사용설명서 작성 및 심사에 관한 규정 제4조"
  severity := .low
  msg := "사용 전 준비/확인 문구가 중복되어 간결성이 떨어질 수 있습니다."
  suggest := "중복되는 \x27확인\x27 중심 문장을 통합해 간결화하세요. (예: 포장/손상/청결 확인을 1개 항목으로 통합)"

def singleUseIssue : RuleIssue where
  rule := "의료기기 사용설명서 작성 및 심사에 관한 규정 제5조"
  severity := .medium
  msg := "일회용/재사용 금지 원칙이 명확히 기재되어야 합니다."
  suggest := "\x27본 제품은 일회용으로 재사용하지 않습니다(재사용 금지).\x27 문구를 명확히 기재하세요."

/-- `ruleInstructions` from analyze-submission/index.ts (lines 206-231). -/
def ruleInstructions (text : List Char) : List RuleIssue :=
  if text = [] then []
  else
    (if countMatches "확인".data text ≥ 3 then [confirmRedundancyIssue] else []) ++
    (if !hasSingleUseB text then [singleUseIssue] else [])

/-! ### ruleProhibitedTerms -/

def prohibitedTermIssue : RuleIssue where
  rule := "의료기기법 시행규칙 제45조 별표 7 제1호~10호"
  severity := .high
  msg := "신고서류 외형 파일에서 사용 불가 단어 \x27보호대\x27가 존재하는 것으로 확인됩니다."
  suggest := "명칭 내 사용 불가 단어가 포함되어 있습니다. 의료기기법 시행규칙 제45조(별표 7 제1호~10호)를 확인하시고, 사용 불가 단어를 제거하신 후 제출하시기 바랍니다."

/-- `ruleProhibitedTerms` from analyze-submission/index.ts (lines 233-248). -/
def ruleProhibitedTerms (text : List Char) : List RuleIssue :=
  if text = [] then []
  else if containsSub "보호대".data text then [prohibitedTermIssue]
  else []


/-! ### ruleMaterials (analyze-submission/index.ts lines 96-204) -/

/-- Positional matcher for the `rubber\s*latex` alternative of
`/latex|라텍스|rubber\s*latex/i`. -/
def rubberLatexAt (s : List Char) : Bool :=
  if ciPrefixOf "rubber".data s then
    ciPrefixOf "latex".data ((s.drop 6).dropWhile jsWs)
  else false

def hasLatexB (m : List Char) : Bool :=
  containsCi "latex".data m || containsCi "라텍스".data m || existsMatch rubberLatexAt m

def warnHasLatexB (w : List Char) : Bool :=
  containsCi "알레르기".data w || containsCi "라텍스".data w

def latexIssue : RuleIssue where
  rule := "의료기기 사용설명서 작성 및 심사에 관한 규정 제5조"
  severity := .high
  msg := "원재료에 천연고무 라텍스가 포함되었으나 알레르기 주의 문구가 누락되었습니다."
  suggest := "주의사항에 \x27본 제품에는 천연고무 라텍스가 포함되어 민감자에게 알레르기 반응을 유발할 수 있음\x27을 추가하세요."

/-- Latex allergy warning segment. -/
def latexCheck (materialText warningsText : List Char) : List RuleIssue :=
  if hasLatexB materialText then
    if !warnHasLatexB warningsText then [latexIssue] else []
  else []

/-- Positional matcher for `/CAS\s*번호.*\d/` (case-sensitive; `.` does not
cross a line terminator). -/
def casNumberLineAt (s : List Char) : Bool :=
  if listPrefix "CAS".data s then
    let r := (s.drop 3).dropWhile jsWs
    if listPrefix "번호".data r then
      ((r.drop 2).takeWhile (fun c => !isLineTerm c)).any Char.isDigit
    else false
  else false

def mentholIssue : RuleIssue where
  rule := "의료기기 기술문서 등의 심사에 관한 규정 제6조"
  severity := .medium
  msg := "Menthol 기재는 있으나 CAS 번호가 누락되었을 가능성이 있습니다."
  suggest := "Menthol CAS 번호(예: 89-78-1 등)를 확인하여 원재료 표에 기재하세요."

/-- Menthol CAS-number segment. -/
def mentholCheck (m : List Char) : List RuleIssue :=
  if containsCi "menthol".data m || containsCi "멘솔".data m then
    if !existsMatch casNumberLineAt m then [mentholIssue] else []
  else []

/-! Percentage extraction: `materialText.matchAll(/(\d{1,3}(?:\.\d+)?)\s*%/g)`
followed by `parseFloat` on the captured group.  The captured decimal literal
is modelled as an exact rational. -/

def digitsVal (ds : List Char) : Nat :=
  ds.foldl (fun a c => a * 10 + (c.toNat - '0'.toNat)) 0

def fracVal (ds : List Char) : ℚ :=
  (digitsVal ds : ℚ) / ((10 : ℚ) ^ ds.length)

/-- Match `(?:\.\d+)?\s*%` at `rest`; returns the fractional value and the
number of characters consumed.  The optional group is greedy: the
fraction-less reading is attempted only when the greedy reading fails. -/
def pctAfterInt (rest : List Char) : Option (ℚ × Nat) :=
  let noFrac : Option (ℚ × Nat) :=
    let w := rest.takeWhile jsWs
    match rest.drop w.length with
    | '%' :: _ => some (0, w.length + 1)
    | _ => none
  match rest with
  | '.' :: t =>
    let fs := t.takeWhile Char.isDigit
    if fs.isEmpty then noFrac
    else
      let r2 := t.drop fs.length
      let w := r2.takeWhile jsWs
      match r2.drop w.length with
      | '%' :: _ => some (fracVal fs, 1 + fs.length + w.length + 1)
      | _ => noFrac
  | _ => noFrac

/-- Attempt the percent pattern at `s` with an integer part of exactly `d`
digits. -/
def pctTry (s : List Char) (d : Nat) : Option (ℚ × Nat) :=
  let ds := s.take d
  if ds.length = d && ds.all Char.isDigit then
    match pctAfterInt (s.drop d) with
    | some (fv, len) => some ((digitsVal ds : ℚ) + fv, d + len)
    | none => none
  else none

/-- Match `(\d{1,3}(?:\.\d+)?)\s*%` at the head of `s`; `\d{1,3}` is greedy,
backtracking from three digits down to one. -/
def pctMatchHere (s : List Char) : Option (ℚ × Nat) :=
  (pctTry s 3).orElse (fun _ => (pctTry s 2).orElse (fun _ => pctTry s 1))

/-- The values of all (non-overlapping, left-to-right) percent matches:
`Array.from(materialText.matchAll(...)).map(m => parseFloat(m[1]))`.
A successful match always consumes at least two characters, so `max len 1`
equals `len` whenever it is used. -/
def scanPct : List Char → List ℚ
  | [] => []
  | c :: cs =>
    match pctMatchHere (c :: cs) with
    | some (v, len) => v :: scanPct ((c :: cs).drop (max len 1))
    | none => scanPct cs
termination_by s => s.length
decreasing_by
  · simp only [List.length_drop, List.length_cons]
    omega
  · simp

/-- `percentages.reduce((a, b) => a + b, 0)`. -/
def sumPct (m : List Char) : ℚ :=
  (scanPct m).foldl (fun a b => a + b) 0

/-- `sum.toFixed(1)`: one-decimal rendering (exact for the decimal rationals
produced by the percent scanner). -/
def toFixed1 (q : ℚ) : String :=
  let n : Int := (q * 10 + 1 / 2).floor
  toString (n / 10) ++ "." ++ toString (n % 10)

def pctIssueMsg (s : ℚ) : String :=
  "원재료(%) 합계가 100%와 불일치할 가능성(" ++ toFixed1 s ++ "%)이 있습니다."

def pctIssue (s : ℚ) : RuleIssue where
  rule := "의료기기 기술문서 등의 심사에 관한 규정 별표1"
  severity := .medium
  msg := pctIssueMsg s
  suggest := "함량 합계를 재검토하여 100%가 되도록 조정·정정하세요(중복/중첩 기재 여부 확인)."

/-- Percentage sum segment (lines 127-140). -/
def pctCheck (m : List Char) : List RuleIssue :=
  let percentages := scanPct m
  if percentages.isEmpty then []
  else
    let s := sumPct m
    if s < (99.5 : ℚ) || s > (100.5 : ℚ) then [pctIssue s] else []

def contactIssue : RuleIssue where
  rule := "의료기기 기술문서 등의 심사에 관한 규정 별표1"
  severity := .low
  msg := "원재료 표의 접촉부위/인체접촉 여부 기재가 미흡합니다."
  suggest := "각 원재료의 인체 접촉 여부 및 접촉 부위를 비고란에 명확히 기재하세요."

/-- Contact information segment (`/접촉|피부|인체접촉/`). -/
def contactCheck (m : List Char) : List RuleIssue :=
  if !(containsSub "접촉".data m || containsSub "피부".data m
      || containsSub "인체접촉".data m) then [contactIssue]
  else []

/-- Positional matcher for `(벨크로|밸크로|Velcro|3M\s*\d{3,4})` with `/gi`:
returns the matched text and its length. -/
def brandMatchHere (s : List Char) : Option (List Char × Nat) :=
  if listPrefix "벨크로".data s then some ("벨크로".data, 3)
  else if listPrefix "밸크로".data s then some ("밸크로".data, 3)
  else if ciPrefixOf "velcro".data s then some (s.take 6, 6)
  else
    match s with
    | c1 :: c2 :: rest =>
      if c1 = '3' && c2.toLower = 'm' then
        let w := rest.takeWhile jsWs
        let ds := (rest.drop w.length).takeWhile Char.isDigit
        if ds.length ≥ 4 then some (c1 :: c2 :: (w ++ ds.take 4), 2 + w.length + 4)
        else if ds.length = 3 then some (c1 :: c2 :: (w ++ ds), 2 + w.length + 3)
        else none
      else none
    | _ => none

/-- `matchAll` for the brand pattern: the (start index, matched text) pairs of
the non-overlapping left-to-right matches. -/
def brandMatches : List Char → Nat → List (Nat × List Char)
  | [], _ => []
  | c :: cs, i =>
    match brandMatchHere (c :: cs) with
    | some (txt, len) =>
      (i, txt) :: brandMatches ((c :: cs).drop (max len 1)) (i + max len 1)
    | none => brandMatches cs (i + 1)
termination_by s _ => s.length
decreasing_by
  · simp only [List.length_drop, List.length_cons]
    omega
  · simp

/-- `/(일반명|화학명|CAS\s*번호)/i` tested on a 200-character window. -/
def casBeonhoCiAt (s : List Char) : Bool :=
  if ciPrefixOf "cas".data s then
    listPrefix "번호".data ((s.drop 3).dropWhile jsWs)
  else false

def genericNearB (window : List Char) : Bool :=
  containsCi "일반명".data window || containsCi "화학명".data window
    || existsMatch casBeonhoCiAt window

def brandIssueMsg (txt : List Char) : String :=
  "상표/제품명(\x27" ++ String.mk txt
    ++ "\x27)이 기재되었으나 인접 구간에 원재료명(일반명/화학명) 또는 CAS 번호가 확인되지 않습니다."

def brandIssue (txt : List Char) : RuleIssue where
  rule := "의료기기 기술문서 등의 심사에 관한 규정 제6조"
  severity := .medium
  msg := brandIssueMsg txt
  suggest := "상표/제품명과 함께 원재료명(일반명/화학명) 및 CAS 번호를 명확히 기재하세요. 예: Nylon(Polyamide), CAS 25038-54-4."

/-- Brand/trademark segment (lines 153-168); the window is
`materialText.substring(start, start + 200)`. -/
def brandCheck (m : List Char) : List RuleIssue :=
  (brandMatches m 0).filterMap (fun p =>
    if genericNearB ((m.drop p.1).take 200) then none
    else some (brandIssue p.2))

/-- Positional matcher for the `Titanium\s*Dioxide` alternative. -/
def titaniumDioxideAt (s : List Char) : Bool :=
  if ciPrefixOf "titanium".data s then
    ciPrefixOf "dioxide".data ((s.drop 8).dropWhile jsWs)
  else false

def needsPurposeB (m : List Char) : Bool :=
  containsCi "pigment".data m || containsCi "dye".data m || containsCi "색소".data m
    || existsMatch titaniumDioxideAt m

def hasPurposeB (m : List Char) : Bool :=
  containsSub "착색제".data m || containsSub "자외선차단제".data m
    || containsSub "안정화제".data m || containsSub "유화제".data m
    || containsSub "분산제".data m || containsSub "보존제".data m
    || containsSub "가교제".data m || containsSub "가소제".data m
    || containsSub "개시제".data m || containsSub "윤활제".data m
    || containsSub "촉매제".data m || containsSub "항산화제".data m

def additiveIssue : RuleIssue where
  rule := "의료기기 기술문서 등의 심사에 관한 규정 별표1"
  severity := .medium
  msg := "첨가제/색소 항목의 비고란에 첨가목적(예: 착색제, 자외선차단제 등) 기재가 누락되었습니다."
  suggest := "해당 원재료 행 비고란에 첨가목적을 명시하세요."

/-- Additive purpose segment. -/
def additiveCheck (m : List Char) : List RuleIssue :=
  if needsPurposeB m && !hasPurposeB m then [additiveIssue] else []

/-- Positional matcher for the `CAS\s*[:\s]*\d{2,}` alternative of
`/(일반명|화학명|CAS\s*[:\s]*\d{2,})/i` (`\s*[:\s]*` accepts exactly the runs
of whitespace and colons). -/
def casDigitsAt (s : List Char) : Bool :=
  if ciPrefixOf "cas".data s then
    match (s.drop 3).dropWhile (fun c => jsWs c || c = ':') with
    | a :: b :: _ => a.isDigit && b.isDigit
    | _ => false
  else false

def hasGenericNameB (m : List Char) : Bool :=
  containsCi "일반명".data m || containsCi "화학명".data m || existsMatch casDigitsAt m

def genericNameIssue : RuleIssue where
  rule := "의료기기 기술문서 등의 심사에 관한 규정 제6조"
  severity := .medium
  msg := "원재료명 또는 성분명란에 일반명/화학명/CAS 기재가 불충분합니다."
  suggest := "예: 일반명 Nylon / 화학명 Polyamide / CAS 25038-54-4 형태로 기재하세요."

/-- Generic-name completeness segment. -/
def genericNameCheck (m : List Char) : List RuleIssue :=
  if !hasGenericNameB m then [genericNameIssue] else []

/-- `[\w\-\.]` of JS: word character, hyphen or dot. -/
def isWordCharJs (c : Char) : Bool :=
  c.isAlpha || c.isDigit || c = '_' || c = '-' || c = '.'

/-- Positional matcher for `/(KS|ASTM|ISO)\s*[\w\-\.]+/i`. -/
def specStdAt (s : List Char) : Bool :=
  let afterAlt : Option (List Char) :=
    if ciPrefixOf "ks".data s then some (s.drop 2)
    else if ciPrefixOf "astm".data s then some (s.drop 4)
    else if ciPrefixOf "iso".data s then some (s.drop 3)
    else none
  match afterAlt with
  | none => false
  | some r =>
    match r.dropWhile jsWs with
    | c :: _ => isWordCharJs c
    | [] => false

def hasSpecB (m : List Char) : Bool :=
  existsMatch specStdAt m || containsSub "자사규격".data m

def specIssue : RuleIssue where
  rule := "의료기기 기술문서 등의 심사에 관한 규정 별표1"
  severity := .medium
  msg := "규격란에 KS/ASTM/ISO 등 공인 규격 또는 자사규격 기재가 필요합니다."
  suggest := "관련 규격이 없으면 \x27자사규격\x27을, 있으면 KS/ASTM/ISO 규격번호를 기재하세요."

/-- Standards segment. -/
def specCheck (m : List Char) : List RuleIssue :=
  if !hasSpecB m then [specIssue] else []

/-- `ruleMaterials` from analyze-submission/index.ts (lines 96-204); the
segments are pushed in source order. -/
def ruleMaterials (materialText warningsText : List Char) : List RuleIssue :=
  if materialText = [] then []
  else
    latexCheck materialText warningsText ++ mentholCheck materialText
      ++ pctCheck materialText ++ contactCheck materialText
      ++ brandCheck materialText ++ additiveCheck materialText
      ++ genericNameCheck materialText ++ specCheck materialText

/-! ### runRuleBasedFiltering (lines 250-286) -/

def severityMap : RuleSeverity → Severity
  | .high => .error
  | .medium => .warning
  | .low => .info

/-- The conversion applied to each rule issue in `runRuleBasedFiltering`. -/
def ruleIssueToAnalysis (i : RuleIssue) : AnalysisIssue where
  category := "규정 준수"
  severity := severityMap i.severity
  title := i.msg
  description := i.msg ++ "\n\n" ++ i.suggest
  location := some "문서 전체"
  suggestion := some i.suggest
  regulation := some i.rule
  regulation_highlight := some i.rule
  regulation_title := some i.rule
  regulation_category := some "의료기기법 및 하위 규정"
  regulation_status := some "active"

/-- `runRuleBasedFiltering`: the five checks in their fixed order, followed by
the conversion to analysis issues. -/
def runRuleBasedFiltering (submissionText : List Char) : List AnalysisIssue :=
  (ruleSterileConflict submissionText ++ ruleUnits submissionText
    ++ ruleMaterials submissionText submissionText
    ++ ruleInstructions submissionText
    ++ ruleProhibitedTerms submissionText).map ruleIssueToAnalysis


/-! ### Chunker (process-document/index.ts lines 236-248) -/

/-- Grouping loop of `chunkText`: `for (i = 0; i < words.length; i += m + 1)`
taking `words.slice(i, i + m + 1)` each round. -/
def chunkGroupsGo (m : Nat) : List (List Char) → List (List (List Char))
  | [] => []
  | w :: rest => ((w :: rest).take (m + 1)) :: chunkGroupsGo m ((w :: rest).drop (m + 1))
termination_by ws => ws.length
decreasing_by
  simp only [List.length_drop, List.length_cons]
  omega

/-- `chunkText(text, wordsPerChunk)`: split on `/\s+/`, group `wordsPerChunk`
words, join each group with a single space, and keep only chunks that are
non-empty after trimming.  The JS loop does not terminate for
`wordsPerChunk = 0`; the model returns `[]` there and is only ever used at
positive sizes (the caller passes 500). -/
def chunkText (text : List Char) (wordsPerChunk : Nat) : List (List Char) :=
  match wordsPerChunk with
  | 0 => []
  | m + 1 =>
    ((chunkGroupsGo m (jsSplitWs text)).map joinSpace).filter
      (fun c => !(trimWs c).isEmpty)

/-! ### IssueAggregator (analyze-submission/index.ts lines 526-529) -/

inductive OverallStatus where
  | compliant
  | non_compliant
  | needs_review
deriving DecidableEq, Repr

/-- `overallStatus`: `hasErrors ? 'non_compliant' : hasWarnings ?
'needs_review' : 'compliant'` over the union of all issues. -/
def overallStatus (allIssues : List AnalysisIssue) : OverallStatus :=
  let hasErrors := allIssues.any (fun issue => issue.severity == Severity.error)
  let hasWarnings := allIssues.any (fun issue => issue.severity == Severity.warning)
  if hasErrors then .non_compliant
  else if hasWarnings then .needs_review
  else .compliant

/-! ### RegulationIndex: search_similar_regulations
(migration 20251031094553, lines 2-27) -/

/-- A `regulation_chunks` row as seen by the similarity search.  The embedding
type is abstract and the pgvector cosine-distance operator is passed as a
function, since the claims concern the threshold filter, the ordering and the
cap, not the distance computation itself. -/
structure RegChunkV (Emb : Type) where
  id : Nat
  regulation_id : Nat
  content : String
  embedding : Emb
deriving DecidableEq, Repr

/-- `search_similar_regulations(query_embedding, match_threshold, match_count)`:
`SELECT ... WHERE 1 - (embedding <=> q) > match_threshold ORDER BY
embedding <=> q LIMIT match_count`. -/
def search_similar_regulations {Emb : Type} (dist : Emb → Emb → ℚ)
    (chunks : List (RegChunkV Emb)) (query_embedding : Emb)
    (match_threshold : ℚ) (match_count : Nat) : List (RegChunkV Emb) :=
  (((chunks.filter (fun c => 1 - dist c.embedding query_embedding > match_threshold)).insertionSort
      (fun a b => dist a.embedding query_embedding ≤ dist b.embedding query_embedding)).take
    match_count)

/-! ### Relational store rows and the whole-document regulation query -/

structure SubmissionRow where
  id : Nat
  status : String
deriving DecidableEq, Repr

structure SubmissionChunkRow where
  submission_id : Nat
  content : String
  chunk_index : Nat
deriving DecidableEq, Repr

structure RegulationRow where
  id : Nat
  title : String
  category : String
  version : Option String
  effective_date : Option String
  status : String
deriving DecidableEq, Repr

structure RegulationChunkRow where
  regulation_id : Nat
  content : String
  chunk_index : Nat
deriving DecidableEq, Repr

structure AnalysisResultRow where
  id : Nat
  submission_id : Nat
  overall_status : OverallStatus
deriving DecidableEq, Repr

structure AnalysisIssueRow where
  analysis_result_id : Nat
  issue : AnalysisIssue
deriving DecidableEq, Repr

/-- The relational store as consulted and mutated by the entry points. -/
structure Db where
  submissions : List SubmissionRow
  submission_chunks : List SubmissionChunkRow
  regulations : List RegulationRow
  regulation_chunks : List RegulationChunkRow
  analysis_results : List AnalysisResultRow
  analysis_issues : List AnalysisIssueRow
deriving DecidableEq, Repr

/-- The submission-chunk read of analyze-submission:
`.from('submission_chunks').select('content').eq('submission_id', id)
.order('chunk_index')`. -/
def chunksFor (db : Db) (submissionId : Nat) : List SubmissionChunkRow :=
  (db.submission_chunks.filter (fun c => c.submission_id == submissionId)).insertionSort
    (fun a b => a.chunk_index ≤ b.chunk_index)

/-- The whole-document regulation read of analyze-submission (lines 332-348):
`.from('regulation_chunks').select('content, chunk_index, regulation_id,
regulations (...)').order('chunk_index')` — every chunk row joined with its
regulation metadata, with no condition on the regulation status. -/
def regulationChunksQuery (db : Db) : List (RegulationChunkRow × Option RegulationRow) :=
  (db.regulation_chunks.map
      (fun c => (c, db.regulations.find? (fun r => r.id == c.regulation_id)))).insertionSort
    (fun a b => a.1.chunk_index ≤ b.1.chunk_index)

/-! ### analyzeSubmission entry point (analyze-submission/index.ts, first
variant, lines 288-609) -/

/-- Outcome of the single whole-document model call: a non-OK gateway
response throws; an OK response either contains a parsable JSON array of
issues or does not (no bracketed array, or `JSON.parse` failure), in which
case the AI contribution stays empty. -/
inductive AiCall where
  | httpFail (status : Nat)
  | ok (parsed : Option (List AnalysisIssue))
deriving DecidableEq, Repr

inductive HttpResponse where
  | success (analysisId : Nat) (overall : OverallStatus) (issuesFound : Nat)
  | err (message : String)
deriving DecidableEq, Repr

/-- The `analyzeSubmission` entry point as a state transformer on the store.
External effects — the configured API key and the model call — are passed as
oracle arguments; the fresh `analysis_results` row id is `newResultId`.
The catch handler (lines 597-608) turns every thrown error into a
500-response with the store left as it was at the throw site. -/
def analyzeSubmission (db : Db) (submissionId : Nat) (apiKeyConfigured : Bool)
    (ai : AiCall) (newResultId : Nat) : HttpResponse × Db :=
  let submissionChunks := chunksFor db submissionId
  if submissionChunks.isEmpty then
    (.err "No submission chunks found. The document may still be processing or failed to process.",
      db)
  else
    let submissionText := String.intercalate "\n\n" (submissionChunks.map (fun c => c.content))
    if !apiKeyConfigured then (.err "LOVABLE_API_KEY not configured", db)
    else
      let ruleBasedIssues := runRuleBasedFiltering submissionText.data
      match ai with
      | .httpFail status => (.err ("AI analysis failed: " ++ toString status), db)
      | .ok parsed =>
        let aiIssues := parsed.getD []
        let allIssues := ruleBasedIssues ++ aiIssues
        let overall := overallStatus allIssues
        let resultRow : AnalysisResultRow :=
          { id := newResultId, submission_id := submissionId, overall_status := overall }
        let db1 := { db with analysis_results := db.analysis_results ++ [resultRow] }
        let db2 :=
          if allIssues.isEmpty then db1
          else { db1 with
            analysis_issues := db1.analysis_issues
              ++ allIssues.map (fun i => { analysis_result_id := newResultId, issue := i }) }
        let db3 := { db2 with
          submissions := db2.submissions.map
            (fun su => if su.id == submissionId then { su with status := "completed" } else su) }
        (.success newResultId overall allIssues.length, db3)

/-! ### Per-chunk analysis loop (unnamed/part_003 lines 59-149) -/

/-- Outcome of the external calls made for one submission chunk in the
per-chunk retrieval variant.  `searchError`, `noMatches` and `modelNotOk` are
the error-result paths that `continue` the loop; `modelThrows` models a
rejected `fetch` (or a throwing `response.json()`), which nothing inside the
loop catches; `modelOk none` is an OK response without a parsable JSON array
(the `JSON.parse` catch swallows the error). -/
inductive ChunkCallResult where
  | searchError
  | noMatches
  | modelNotOk
  | modelThrows
  | modelOk (parsedIssues : Option (List AnalysisIssue))
deriving DecidableEq, Repr

/-- The accumulation loop over submission chunks: error-result outcomes
`continue`; a thrown exception escapes the loop (to the outer catch handler,
part_003 lines 216-227, which produces a 500 response). -/
def perChunkLoop : List ChunkCallResult → Except String (List AnalysisIssue)
  | [] => .ok []
  | c :: rest =>
    match c with
    | .searchError => perChunkLoop rest
    | .noMatches => perChunkLoop rest
    | .modelNotOk => perChunkLoop rest
    | .modelThrows => .error "AI analysis call threw"
    | .modelOk none => perChunkLoop rest
    | .modelOk (some issues) =>
      match perChunkLoop rest with
      | .ok acc => .ok (issues ++ acc)
      | .error e => .error e

/-- The issues the per-chunk loop is expected to accumulate: the
concatenation of every successfully parsed chunk result. -/
def parsedIssuesOf (calls : List ChunkCallResult) : List AnalysisIssue :=
  (calls.filterMap (fun c =>
    match c with
    | .modelOk (some issues) => some issues
    | _ => none)).flatten

/-! ### Regulation ingestion (process-regulation/index.ts lines 121-141 and
process-document/index.ts lines 167-182) -/

/-- The rows inserted by process-regulation: each chunk with its index, the
content suffixed with the no-text diagnosis when extraction found no text. -/
def processRegulationBatch (regulationId : Nat) (chunks : List String)
    (hasTextContent : Bool) (noTextReason : String) : List RegulationChunkRow :=
  chunks.enum.map (fun p =>
    { regulation_id := regulationId
      content := if hasTextContent then p.2 else p.2 ++ "\n\n[사유: " ++ noTextReason ++ "]"
      chunk_index := p.1 })

/-- Effect of process-regulation on the `regulation_chunks` table: delete the
regulation's existing chunks, then insert the new batch. -/
def processRegulationStore (store : List RegulationChunkRow) (regulationId : Nat)
    (chunks : List String) (hasTextContent : Bool) (noTextReason : String) :
    List RegulationChunkRow :=
  (store.filter (fun r => !(r.regulation_id == regulationId)))
    ++ processRegulationBatch regulationId chunks hasTextContent noTextReason

/-- The rows inserted by the `isRegulation` branch of process-document
(content stored as produced by the chunker, embedding null). -/
def processDocumentRegBatch (regulationId : Nat) (chunks : List String) :
    List RegulationChunkRow :=
  chunks.enum.map (fun p =>
    { regulation_id := regulationId, content := p.2, chunk_index := p.1 })

/-- Effect of the `isRegulation && regulationId` branch of process-document on
the `regulation_chunks` table: it only inserts — there is no delete. -/
def processDocumentRegStore (store : List RegulationChunkRow) (regulationId : Nat)
    (chunks : List String) : List RegulationChunkRow :=
  store ++ processDocumentRegBatch regulationId chunks

/-! ### Support definitions for the statements -/

/-- Identifies the percentage-sum finding by the fixed head of its message. -/
def isPctFindingB (i : RuleIssue) : Bool :=
  listPrefix "원재료(%) 합계가".data i.msg.data

/-- A minimal analysis issue of a given severity (used to instantiate the
verdict statements). -/
def mkIssue (sev : Severity) : AnalysisIssue where
  category := "규정 준수"
  severity := sev
  title := "t"
  description := "d"
  location := none
  suggestion := none
  regulation := none
  regulation_highlight := none
  regulation_title := none
  regulation_category := none
  regulation_status := none


/-- Distance oracle for the concrete similarity-search instances: the
distance of a chunk embedding to any query is the embedding itself. -/
def qDist (a : ℚ) (_b : ℚ) : ℚ := a

/-- A chunk at cosine distance 2/5 from every query, hence with similarity
exactly 3/5. -/
def borderChunk : RegChunkV ℚ where
  id := 1
  regulation_id := 1
  content := "c"
  embedding := 2/5

/-- A chunk at distance 1/4 (similarity 3/4). -/
def nearChunk : RegChunkV ℚ where
  id := 2
  regulation_id := 1
  content := "n"
  embedding := 1/4

/-- A chunk at distance 1/3 (similarity 2/3). -/
def farChunk : RegChunkV ℚ where
  id := 3
  regulation_id := 2
  content := "f"
  embedding := 1/3

/-- A regulation whose lifecycle status is not `active`. -/
def archivedReg : RegulationRow where
  id := 1
  title := "r"
  category := "c"
  version := none
  effective_date := none
  status := "archived"

/-- A chunk belonging to the archived regulation. -/
def archivedRegChunk : RegulationChunkRow where
  regulation_id := 1
  content := "chunk"
  chunk_index := 0

/-- A store holding exactly the archived regulation and its chunk. -/
def dbArchived : Db where
  submissions := []
  submission_chunks := []
  regulations := [archivedReg]
  regulation_chunks := [archivedRegChunk]
  analysis_results := []
  analysis_issues := []

/-- The empty store. -/
def dbEmpty : Db where
  submissions := []
  submission_chunks := []
  regulations := []
  regulation_chunks := []
  analysis_results := []
  analysis_issues := []

/-- A pre-existing chunk of regulation 1, stored before a reprocessing run. -/
def staleChunk : RegulationChunkRow where
  regulation_id := 1
  content := "old"
  chunk_index := 0

/-! ## Theorems -/

theorem any_error_iff (l : List AnalysisIssue) :
    (l.any (fun issue => issue.severity == Severity.error) = true) ↔
      ∃ i ∈ l, i.severity = Severity.error := by
  simp [List.any_eq_true]

theorem any_warning_iff (l : List AnalysisIssue) :
    (l.any (fun issue => issue.severity == Severity.warning) = true) ↔
      ∃ i ∈ l, i.severity = Severity.warning := by
  simp [List.any_eq_true]

/-- C1: over the union of rule-based and model-based issues, the verdict is
`non_compliant` iff some issue has severity `error`; otherwise `needs_review`
iff some issue has severity `warning`; otherwise `compliant`; and the empty
issue list yields `compliant`. -/
theorem verdict_precedence (ruleIssues aiIssues : List AnalysisIssue) :
    (overallStatus (ruleIssues ++ aiIssues) = .non_compliant ↔
      ∃ i ∈ ruleIssues ++ aiIssues, i.severity = Severity.error)
  ∧ ((∀ i ∈ ruleIssues ++ aiIssues, i.severity ≠ Severity.error) →
      (overallStatus (ruleIssues ++ aiIssues) = .needs_review ↔
        ∃ i ∈ ruleIssues ++ aiIssues, i.severity = Severity.warning))
  ∧ ((∀ i ∈ ruleIssues ++ aiIssues, i.severity ≠ Severity.error) →
     (∀ i ∈ ruleIssues ++ aiIssues, i.severity ≠ Severity.warning) →
      overallStatus (ruleIssues ++ aiIssues) = .compliant)
  ∧ overallStatus ([] : List AnalysisIssue) = .compliant := by
  have main : ∀ l : List AnalysisIssue,
      (overallStatus l = .non_compliant ↔ ∃ i ∈ l, i.severity = Severity.error)
    ∧ ((∀ i ∈ l, i.severity ≠ Severity.error) →
        (overallStatus l = .needs_review ↔ ∃ i ∈ l, i.severity = Severity.warning))
    ∧ ((∀ i ∈ l, i.severity ≠ Severity.error) →
       (∀ i ∈ l, i.severity ≠ Severity.warning) →
        overallStatus l = .compliant) := by
    intro l
    refine ⟨?_, ?_, ?_⟩
    · rw [← any_error_iff]
      unfold overallStatus
      cases hE : l.any (fun issue => issue.severity == Severity.error)
      · simp only [hE, Bool.false_eq_true, if_false]
        constructor
        · intro h
          split at h <;> simp_all
        · intro h
          exact absurd h (by simp)
      · simp [hE]
    · intro hNoErr
      have hE : l.any (fun issue => issue.severity == Severity.error) = false := by
        cases h : l.any (fun issue => issue.severity == Severity.error)
        · rfl
        · obtain ⟨i, hi, hsev⟩ := (any_error_iff l).mp h
          exact absurd hsev (hNoErr i hi)
      rw [← any_warning_iff]
      unfold overallStatus
      simp only [hE, Bool.false_eq_true, if_false]
      cases hW : l.any (fun issue => issue.severity == Severity.warning) <;> simp [hW]
    · intro hNoErr hNoWarn
      have hE : l.any (fun issue => issue.severity == Severity.error) = false := by
        cases h : l.any (fun issue => issue.severity == Severity.error)
        · rfl
        · obtain ⟨i, hi, hsev⟩ := (any_error_iff l).mp h
          exact absurd hsev (hNoErr i hi)
      have hW : l.any (fun issue => issue.severity == Severity.warning) = false := by
        cases h : l.any (fun issue => issue.severity == Severity.warning)
        · rfl
        · obtain ⟨i, hi, hsev⟩ := (any_warning_iff l).mp h
          exact absurd hsev (hNoWarn i hi)
      unfold overallStatus
      simp [hE, hW]
  exact ⟨(main _).1, (main _).2.1, (main _).2.2, rfl⟩

theorem verdict_precedence_witness :
    overallStatus ([mkIssue .error] ++ [mkIssue .warning]) = .non_compliant
  ∧ overallStatus ([mkIssue .warning] ++ []) = .needs_review
  ∧ overallStatus (([] : List AnalysisIssue) ++ []) = .compliant := by
  refine ⟨?_, ?_, ?_⟩
  · exact (verdict_precedence [mkIssue .error] [mkIssue .warning]).1.mpr
      ⟨mkIssue .error, by simp, rfl⟩
  · exact ((verdict_precedence [mkIssue .warning] []).2.1
      (by decide)).mpr ⟨mkIssue .warning, by simp, rfl⟩
  · exact (verdict_precedence [] []).2.2.1 (by simp) (by simp)

/-- C3: a text containing both a sterile marker and a non-sterile marker
yields exactly one high-severity finding; a text containing only one of the
two markers yields no finding.  The markers are the substring patterns of the
source regexes (`멸균` and `비멸균|무멸균`). -/
theorem sterile_conflict_rule (text : List Char) :
    (hasSterileB text = true → hasNonSterileB text = true →
      (ruleSterileConflict text).length = 1 ∧
      ∀ i ∈ ruleSterileConflict text, i.severity = RuleSeverity.high)
  ∧ ((hasSterileB text = true ∧ hasNonSterileB text = false) ∨
     (hasSterileB text = false ∧ hasNonSterileB text = true) →
      ruleSterileConflict text = []) := by
  constructor
  · intro h1 h2
    have hne : text ≠ [] := by
      intro he
      rw [he] at h1
      exact absurd h1 (by decide)
    unfold ruleSterileConflict
    simp [hne, h1, h2, sterileConflictIssue]
  · intro h
    unfold ruleSterileConflict
    rcases h with ⟨h1, h2⟩ | ⟨h1, h2⟩ <;>
      by_cases hne : text = [] <;> simp [hne, h1, h2]

theorem sterile_conflict_rule_witness :
    ((ruleSterileConflict "멸균 비멸균".data).length = 1 ∧
      ∀ i ∈ ruleSterileConflict "멸균 비멸균".data, i.severity = RuleSeverity.high)
  ∧ ruleSterileConflict "멸균 포장".data = [] := by
  constructor
  · exact (sterile_conflict_rule "멸균 비멸균".data).1 (by decide) (by decide)
  · exact (sterile_conflict_rule "멸균 포장".data).2 (Or.inl (by decide))

/-- C9: the RuleEngine is deterministic — two runs on the same text return the
identical issue list — and the issue list is the conversion of the five checks
run in their fixed order (sterile-conflict, units, materials, instructions,
prohibited terms), with no randomness and no external calls (the engine is a
pure function of the text). -/
theorem rule_engine_deterministic (text : List Char) (run1 run2 : List AnalysisIssue)
    (h1 : run1 = runRuleBasedFiltering text) (h2 : run2 = runRuleBasedFiltering text) :
    run1 = run2 ∧
    run1 = (ruleSterileConflict text ++ ruleUnits text ++ ruleMaterials text text
      ++ ruleInstructions text ++ ruleProhibitedTerms text).map ruleIssueToAnalysis := by
  subst h1
  subst h2
  exact ⟨rfl, rfl⟩

theorem rule_engine_deterministic_witness :
    runRuleBasedFiltering "확인".data = runRuleBasedFiltering "확인".data ∧
    runRuleBasedFiltering "확인".data =
      (ruleSterileConflict "확인".data ++ ruleUnits "확인".data
        ++ ruleMaterials "확인".data "확인".data
        ++ ruleInstructions "확인".data ++ ruleProhibitedTerms "확인".data).map
        ruleIssueToAnalysis :=
  rule_engine_deterministic "확인".data _ _ rfl rfl


/-- C2 counterexample: a chunk whose similarity is exactly the threshold is
excluded by the search — the `WHERE 1 - (embedding <=> q) > match_threshold`
filter is strict, not an inclusive lower bound. -/
theorem similarity_threshold_counterexample :
    1 - qDist borderChunk.embedding 0 = (3 : ℚ)/5
  ∧ search_similar_regulations qDist [borderChunk] 0 ((3 : ℚ)/5) 5 = [] := by
  have hc : ¬((1 : ℚ) - qDist borderChunk.embedding 0 > (3 : ℚ)/5) := by
    norm_num [qDist, borderChunk]
  constructor
  · norm_num [qDist, borderChunk]
  · simp [search_similar_regulations, List.filter_cons, hc, List.insertionSort]

/-- C2 (amended): the search returns exactly the chunks whose similarity is
strictly above the threshold (a chunk at exactly the threshold is excluded),
ordered by descending similarity and capped at `match_count`; a qualifying
chunk is left out only when the cap is already filled. -/
theorem similarity_search_spec {Emb : Type} (dist : Emb → Emb → ℚ)
    (chunks : List (RegChunkV Emb)) (q : Emb) (t : ℚ) (k : Nat) :
    (∀ c ∈ search_similar_regulations dist chunks q t k, 1 - dist c.embedding q > t)
  ∧ (search_similar_regulations dist chunks q t k).length ≤ k
  ∧ List.Sorted (fun a b => 1 - dist b.embedding q ≤ 1 - dist a.embedding q)
      (search_similar_regulations dist chunks q t k)
  ∧ (∀ c ∈ chunks, 1 - dist c.embedding q > t →
      c ∉ search_similar_regulations dist chunks q t k →
      (search_similar_regulations dist chunks q t k).length = k) := by
  classical
  set r : RegChunkV Emb → RegChunkV Emb → Prop :=
    fun a b => dist a.embedding q ≤ dist b.embedding q with hr
  haveI : IsTotal (RegChunkV Emb) r := ⟨fun a b => le_total _ _⟩
  haveI : IsTrans (RegChunkV Emb) r := ⟨fun a b c hab hbc => le_trans hab hbc⟩
  set filtered := chunks.filter (fun c => 1 - dist c.embedding q > t) with hfil
  have hres : search_similar_regulations dist chunks q t k =
      (filtered.insertionSort r).take k := rfl
  refine ⟨?_, ?_, ?_, ?_⟩
  · intro c hc
    rw [hres] at hc
    have h1 : c ∈ filtered.insertionSort r := List.take_subset _ _ hc
    have h2 : c ∈ filtered := (List.mem_insertionSort r).mp h1
    rw [hfil] at h2
    simpa using (List.mem_filter.mp h2).2
  · rw [hres]
    exact List.length_take_le _ _
  · have hs : List.Sorted r (filtered.insertionSort r) := List.sorted_insertionSort r filtered
    have hst : List.Sorted r ((filtered.insertionSort r).take k) :=
      List.Pairwise.sublist (List.take_sublist _ _) hs
    rw [hres]
    exact hst.imp (fun hab => by
      simp only [hr] at hab
      linarith)
  · intro c hc hgt hnotin
    rw [hres] at hnotin ⊢
    by_cases hlen : (filtered.insertionSort r).length ≤ k
    · exfalso
      apply hnotin
      rw [List.take_of_length_le hlen]
      rw [List.mem_insertionSort, hfil, List.mem_filter]
      exact ⟨hc, by simpa using hgt⟩
    · rw [List.length_take]
      omega

theorem similarity_search_spec_witness :
    (∀ c ∈ search_similar_regulations qDist [nearChunk, farChunk] 0 ((1 : ℚ)/2) 1,
      1 - qDist c.embedding 0 > (1 : ℚ)/2)
  ∧ (search_similar_regulations qDist [nearChunk, farChunk] 0 ((1 : ℚ)/2) 1).length = 1 := by
  have hres : search_similar_regulations qDist [nearChunk, farChunk] 0 ((1 : ℚ)/2) 1
      = [nearChunk] := by
    have h1 : ((1 : ℚ) - qDist nearChunk.embedding 0 > (1 : ℚ)/2) := by
      norm_num [qDist, nearChunk]
    have h2 : ((1 : ℚ) - qDist farChunk.embedding 0 > (1 : ℚ)/2) := by
      norm_num [qDist, farChunk]
    have h3 : qDist nearChunk.embedding 0 ≤ qDist farChunk.embedding 0 := by
      norm_num [qDist, nearChunk, farChunk]
    norm_num [search_similar_regulations, List.filter_cons, List.insertionSort,
      List.orderedInsert, qDist, nearChunk, farChunk]
  refine ⟨(similarity_search_spec qDist [nearChunk, farChunk] 0 ((1 : ℚ)/2) 1).1, ?_⟩
  have := (similarity_search_spec qDist [nearChunk, farChunk] 0 ((1 : ℚ)/2) 1).2.2.2
    farChunk (by simp) ?_ ?_
  · exact this
  · norm_num [qDist, farChunk]
  · rw [hres]
    simp [farChunk, nearChunk]

/-- C4 counterexample: the whole-document regulation query returns the chunk
of a regulation whose status is `archived` — regulation status is fetched as
metadata but never used as a filter. -/
theorem status_filter_counterexample :
    regulationChunksQuery dbArchived = [(archivedRegChunk, some archivedReg)]
  ∧ archivedReg.status ≠ "active" := by
  constructor
  · rfl
  · decide

/-- C4 (amended): retrieval does not filter on regulation status — the
whole-document query returns every stored regulation chunk (joined with its
regulation metadata, including the status), whatever the statuses are. -/
theorem regulation_query_ignores_status (db : Db) :
    ((regulationChunksQuery db).map Prod.fst).Perm db.regulation_chunks
  ∧ ∀ c ∈ db.regulation_chunks, ∃ m, (c, m) ∈ regulationChunksQuery db := by
  constructor
  · unfold regulationChunksQuery
    have hperm := List.perm_insertionSort
      (fun a b : RegulationChunkRow × Option RegulationRow => a.1.chunk_index ≤ b.1.chunk_index)
      (db.regulation_chunks.map
        (fun c => (c, db.regulations.find? (fun r => r.id == c.regulation_id))))
    have hmap := hperm.map Prod.fst
    have heq : List.map Prod.fst
        (db.regulation_chunks.map
          (fun c => (c, db.regulations.find? (fun r => r.id == c.regulation_id))))
        = db.regulation_chunks := by
      simp [List.map_map, Function.comp_def]
    rw [heq] at hmap
    exact hmap
  · intro c hc
    refine ⟨db.regulations.find? (fun r => r.id == c.regulation_id), ?_⟩
    rw [regulationChunksQuery, List.mem_insertionSort]
    exact List.mem_map_of_mem _ hc

theorem regulation_query_ignores_status_witness :
    ((regulationChunksQuery dbArchived).map Prod.fst).Perm dbArchived.regulation_chunks
  ∧ ∃ m, (archivedRegChunk, m) ∈ regulationChunksQuery dbArchived := by
  refine ⟨(regulation_query_ignores_status dbArchived).1, ?_⟩
  exact (regulation_query_ignores_status dbArchived).2 archivedRegChunk (by decide)

/-- C5 counterexample: the `isRegulation` branch of process-document inserts
the new batch without deleting the regulation's prior chunks, so after the
run the stored chunks are not the new batch alone — the stale chunk
survives. -/
theorem replace_semantics_counterexample :
    (processDocumentRegStore [staleChunk] 1 ["new"]).filter
        (fun r => r.regulation_id == 1)
      ≠ processDocumentRegBatch 1 ["new"]
  ∧ staleChunk ∈ processDocumentRegStore [staleChunk] 1 ["new"] := by
  constructor
  · decide
  · decide

/-- C5 (amended): the processRegulation entry point has replace-all semantics
for the regulation's chunks — after the run its stored chunks are exactly the
new batch, other regulations' chunks are untouched, and reprocessing is
idempotent — while the processDocument entry point with `isRegulation=true`
appends the new batch without deleting prior chunks. -/
theorem regulation_ingestion_replace (store : List RegulationChunkRow)
    (regulationId : Nat) (chunks : List String) (htc : Bool) (reason : String) :
    (processRegulationStore store regulationId chunks htc reason).filter
        (fun r => r.regulation_id == regulationId)
      = processRegulationBatch regulationId chunks htc reason
  ∧ (processRegulationStore store regulationId chunks htc reason).filter
        (fun r => !(r.regulation_id == regulationId))
      = store.filter (fun r => !(r.regulation_id == regulationId))
  ∧ processRegulationStore (processRegulationStore store regulationId chunks htc reason)
        regulationId chunks htc reason
      = processRegulationStore store regulationId chunks htc reason
  ∧ processDocumentRegStore store regulationId chunks
      = store ++ processDocumentRegBatch regulationId chunks := by
  have hbatch : ∀ r ∈ processRegulationBatch regulationId chunks htc reason,
      r.regulation_id = regulationId := by
    intro r hm
    simp only [processRegulationBatch, List.mem_map] at hm
    obtain ⟨p, hp, he⟩ := hm
    rw [← he]
  have hkeep : (processRegulationBatch regulationId chunks htc reason).filter
      (fun r => r.regulation_id == regulationId)
      = processRegulationBatch regulationId chunks htc reason := by
    rw [List.filter_eq_self]
    intro r hr
    simp [hbatch r hr]
  have hdropB : (processRegulationBatch regulationId chunks htc reason).filter
      (fun r => !(r.regulation_id == regulationId)) = [] := by
    rw [List.filter_eq_nil_iff]
    intro r hr
    simp [hbatch r hr]
  have hdropA : (store.filter (fun r => !(r.regulation_id == regulationId))).filter
      (fun r => r.regulation_id == regulationId) = [] := by
    rw [List.filter_eq_nil_iff]
    intro r hr
    have := (List.mem_filter.mp hr).2
    simp_all
  have hidA : (store.filter (fun r => !(r.regulation_id == regulationId))).filter
      (fun r => !(r.regulation_id == regulationId))
      = store.filter (fun r => !(r.regulation_id == regulationId)) := by
    rw [List.filter_eq_self]
    intro r hr
    exact (List.mem_filter.mp hr).2
  refine ⟨?_, ?_, ?_, rfl⟩
  · rw [processRegulationStore, List.filter_append, hdropA, hkeep, List.nil_append]
  · rw [processRegulationStore, List.filter_append, hidA, hdropB, List.append_nil]
  · show (processRegulationStore store regulationId chunks htc reason).filter
        (fun r => !(r.regulation_id == regulationId))
        ++ processRegulationBatch regulationId chunks htc reason
      = processRegulationStore store regulationId chunks htc reason
    rw [processRegulationStore, List.filter_append, hidA, hdropB, List.append_nil]

/-- C6 counterexample: when the model call for the first chunk throws, the
loop does not continue — the exception escapes to the outer catch and no
issues are returned, although the second chunk's call parsed successfully. -/
theorem partial_failure_counterexample :
    perChunkLoop [.modelThrows, .modelOk (some [mkIssue .warning])]
      = .error "AI analysis call threw"
  ∧ perChunkLoop [.modelThrows, .modelOk (some [mkIssue .warning])]
      ≠ .ok [mkIssue .warning] := by
  constructor
  · rfl
  · intro h
    exact Except.noConfusion h

/-- C6 (amended): when every per-chunk failure is an error result (search
error, no matches, non-OK model response, or unparseable model output) — that
is, no call throws — the analysis does not raise and returns exactly the
issues parsed from the successful chunks. -/
theorem per_chunk_continuation (calls : List ChunkCallResult)
    (h : ∀ c ∈ calls, c ≠ ChunkCallResult.modelThrows) :
    perChunkLoop calls = .ok (parsedIssuesOf calls) := by
  induction calls with
  | nil => rfl
  | cons c rest ih =>
    have hrest : ∀ x ∈ rest, x ≠ ChunkCallResult.modelThrows :=
      fun x hx => h x (List.mem_cons_of_mem _ hx)
    have hc := h c (List.mem_cons_self _ _)
    cases c with
    | searchError => simpa [perChunkLoop, parsedIssuesOf] using ih hrest
    | noMatches => simpa [perChunkLoop, parsedIssuesOf] using ih hrest
    | modelNotOk => simpa [perChunkLoop, parsedIssuesOf] using ih hrest
    | modelThrows => exact absurd rfl hc
    | modelOk p =>
      cases p with
      | none => simpa [perChunkLoop, parsedIssuesOf] using ih hrest
      | some issues =>
        rw [perChunkLoop, ih hrest]
        simp [parsedIssuesOf]

theorem per_chunk_continuation_witness :
    perChunkLoop
        [.searchError, .modelOk (some [mkIssue .warning]), .modelNotOk, .modelOk none]
      = .ok (parsedIssuesOf
        [.searchError, .modelOk (some [mkIssue .warning]), .modelNotOk, .modelOk none]) :=
  per_chunk_continuation _ (by decide)

/-- C10: a submission with zero stored chunks makes analyzeSubmission fail
with the 500-path error response and leaves the store unchanged — no
AnalysisResult row, no issues, no status transition. -/
theorem empty_submission_analysis (db : Db) (submissionId : Nat)
    (apiKeyConfigured : Bool) (ai : AiCall) (newResultId : Nat)
    (h : db.submission_chunks.filter (fun c => c.submission_id == submissionId) = []) :
    analyzeSubmission db submissionId apiKeyConfigured ai newResultId =
      (.err "No submission chunks found. The document may still be processing or failed to process.",
        db) := by
  unfold analyzeSubmission chunksFor
  rw [h]
  rfl

theorem empty_submission_analysis_witness :
    analyzeSubmission dbEmpty 1 true (.ok none) 0 =
      (.err "No submission chunks found. The document may still be processing or failed to process.",
        dbEmpty) :=
  empty_submission_analysis dbEmpty 1 true (.ok none) 0 rfl


theorem listPrefix_append_left {p l : List Char} (r : List Char)
    (h : listPrefix p l = true) : listPrefix p (l ++ r) = true := by
  induction p generalizing l with
  | nil => rfl
  | cons a p ih =>
    cases l with
    | nil => simp [listPrefix] at h
    | cons b l =>
      simp only [listPrefix, Bool.and_eq_true, decide_eq_true_eq] at h
      simp only [List.cons_append, listPrefix, Bool.and_eq_true, decide_eq_true_eq]
      exact ⟨h.1, ih h.2⟩

theorem listPrefix_self_append (x r : List Char) : listPrefix x (x ++ r) = true := by
  induction x with
  | nil => rfl
  | cons a x ih =>
    simp only [List.cons_append, listPrefix, Bool.and_eq_true, decide_eq_true_eq]
    exact ⟨trivial, ih⟩

theorem containsSub_cons (x : List Char) (c : Char) (t : List Char) :
    containsSub x (c :: t) = (listPrefix x (c :: t) || containsSub x t) := by
  simp [containsSub, List.tails]

theorem containsSub_of_listPrefix {x s : List Char} (h : listPrefix x s = true) :
    containsSub x s = true := by
  cases s with
  | nil => simpa [containsSub] using h
  | cons a t =>
    rw [containsSub_cons, h]
    rfl

theorem containsSub_append_right (x a s : List Char) (h : containsSub x s = true) :
    containsSub x (a ++ s) = true := by
  induction a with
  | nil => exact h
  | cons c a ih =>
    show containsSub x (c :: (a ++ s)) = true
    rw [containsSub_cons, ih]
    simp

theorem pct_finding_marked (q : ℚ) : isPctFindingB (pctIssue q) = true := by
  unfold isPctFindingB pctIssue pctIssueMsg
  rw [String.data_append, String.data_append]
  apply listPrefix_append_left
  apply listPrefix_append_left
  decide

theorem pct_msg_contains (q : ℚ) :
    containsSub (toFixed1 q).data (pctIssue q).msg.data = true := by
  unfold pctIssue pctIssueMsg
  rw [String.data_append, String.data_append, List.append_assoc]
  exact containsSub_append_right _ _ _
    (containsSub_of_listPrefix (listPrefix_self_append _ _))

theorem brand_not_pct (txt : List Char) : isPctFindingB (brandIssue txt) = false := by
  have h1 : "원재료(%) 합계가".data = '원' :: "재료(%) 합계가".data := rfl
  have h2 : "상표/제품명(\x27".data = '상' :: "표/제품명(\x27".data := rfl
  unfold isPctFindingB brandIssue brandIssueMsg
  rw [String.data_append, String.data_append, h1, h2, List.cons_append, List.cons_append]
  simp [listPrefix]

theorem latexCheck_no_pct (m w : List Char) :
    (latexCheck m w).filter isPctFindingB = [] := by
  have hf : isPctFindingB latexIssue = false := by decide
  unfold latexCheck
  split
  · split
    · simp [hf]
    · rfl
  · rfl

theorem mentholCheck_no_pct (m : List Char) :
    (mentholCheck m).filter isPctFindingB = [] := by
  have hf : isPctFindingB mentholIssue = false := by decide
  unfold mentholCheck
  split
  · split
    · simp [hf]
    · rfl
  · rfl

theorem contactCheck_no_pct (m : List Char) :
    (contactCheck m).filter isPctFindingB = [] := by
  have hf : isPctFindingB contactIssue = false := by decide
  unfold contactCheck
  split
  · simp [hf]
  · rfl

theorem brandCheck_no_pct (m : List Char) :
    (brandCheck m).filter isPctFindingB = [] := by
  rw [List.filter_eq_nil_iff]
  intro i hi
  unfold brandCheck at hi
  rw [List.mem_filterMap] at hi
  obtain ⟨p, hp, he⟩ := hi
  split at he
  · exact absurd he (by simp)
  · have := Option.some.inj he
    rw [← this, brand_not_pct]
    simp

theorem additiveCheck_no_pct (m : List Char) :
    (additiveCheck m).filter isPctFindingB = [] := by
  have hf : isPctFindingB additiveIssue = false := by decide
  unfold additiveCheck
  split
  · simp [hf]
  · rfl

theorem genericNameCheck_no_pct (m : List Char) :
    (genericNameCheck m).filter isPctFindingB = [] := by
  have hf : isPctFindingB genericNameIssue = false := by decide
  unfold genericNameCheck
  split
  · simp [hf]
  · rfl

theorem specCheck_no_pct (m : List Char) :
    (specCheck m).filter isPctFindingB = [] := by
  have hf : isPctFindingB specIssue = false := by decide
  unfold specCheck
  split
  · simp [hf]
  · rfl

/-- C8: for a material text containing at least one percentage literal, the
percentage-sum rule emits its medium-severity finding — with the computed sum
rendered inside the message — exactly when the sum of the percentage literals
deviates from 100 by more than 0.5; the closed interval 99.5-100.5 produces
no finding. -/
theorem percent_sum_rule (mat warn : List Char) (h : scanPct mat ≠ []) :
    ((99.5 : ℚ) ≤ sumPct mat → sumPct mat ≤ (100.5 : ℚ) →
      (ruleMaterials mat warn).filter isPctFindingB = [])
  ∧ (sumPct mat < (99.5 : ℚ) ∨ (100.5 : ℚ) < sumPct mat →
      (ruleMaterials mat warn).filter isPctFindingB = [pctIssue (sumPct mat)]
      ∧ (pctIssue (sumPct mat)).severity = RuleSeverity.medium
      ∧ containsSub (toFixed1 (sumPct mat)).data (pctIssue (sumPct mat)).msg.data = true) := by
  have hmne : mat ≠ [] := by
    intro he
    apply h
    rw [he, scanPct]
  have hfilters : (ruleMaterials mat warn).filter isPctFindingB
      = (pctCheck mat).filter isPctFindingB := by
    unfold ruleMaterials
    rw [if_neg hmne]
    simp only [List.filter_append, latexCheck_no_pct, mentholCheck_no_pct,
      contactCheck_no_pct, brandCheck_no_pct, additiveCheck_no_pct,
      genericNameCheck_no_pct, specCheck_no_pct, List.nil_append, List.append_nil]
  have hne : (scanPct mat).isEmpty = false := by
    cases hsc : scanPct mat
    · exact absurd hsc h
    · rfl
  constructor
  · intro hlo hhi
    have hc1 : ¬(sumPct mat < (99.5 : ℚ)) := not_lt.mpr hlo
    have hc2 : ¬(sumPct mat > (100.5 : ℚ)) := not_lt.mpr hhi
    rw [hfilters]
    unfold pctCheck
    simp [hne, hc1, hc2]
  · intro hdev
    refine ⟨?_, rfl, pct_msg_contains _⟩
    rw [hfilters]
    unfold pctCheck
    simp only [hne, Bool.false_eq_true, if_false]
    split
    · simp [pct_finding_marked]
    · next hfalse =>
      exfalso
      simp only [Bool.or_eq_true, decide_eq_true_eq, not_or] at hfalse
      rcases hdev with h1 | h1
      · exact absurd h1 hfalse.1
      · exact absurd h1 hfalse.2

theorem percent_sum_rule_witness :
    ((ruleMaterials "99.4%".data []).filter isPctFindingB
        = [pctIssue (sumPct "99.4%".data)]
      ∧ (pctIssue (sumPct "99.4%".data)).severity = RuleSeverity.medium
      ∧ containsSub (toFixed1 (sumPct "99.4%".data)).data
          (pctIssue (sumPct "99.4%".data)).msg.data = true)
  ∧ (ruleMaterials "99.6%".data []).filter isPctFindingB = [] := by
  have h9 : '9'.toNat = 57 := by decide
  have h0 : '0'.toNat = 48 := by decide
  have h4 : '4'.toNat = 52 := by decide
  have h6 : '6'.toNat = 54 := by decide
  have hscan4 : scanPct "99.4%".data = [(497 : ℚ)/5] := by
    norm_num +decide [scanPct, pctMatchHere, pctTry, pctAfterInt, digitsVal, fracVal,
      h9, h0, h4]
  have hscan6 : scanPct "99.6%".data = [(498 : ℚ)/5] := by
    norm_num +decide [scanPct, pctMatchHere, pctTry, pctAfterInt, digitsVal, fracVal,
      h9, h0, h6]
  have hsum4 : sumPct "99.4%".data = (99.4 : ℚ) := by
    rw [sumPct, hscan4]
    norm_num
  have hsum6 : sumPct "99.6%".data = (99.6 : ℚ) := by
    rw [sumPct, hscan6]
    norm_num
  constructor
  · exact (percent_sum_rule "99.4%".data [] (by rw [hscan4]; simp)).2
      (Or.inl (by rw [hsum4]; norm_num))
  · exact (percent_sum_rule "99.6%".data [] (by rw [hscan6]; simp)).1
      (by rw [hsum6]; norm_num) (by rw [hsum6]; norm_num)


theorem splitWsGo_wsFree : ∀ (s cur : List Char), (∀ c ∈ cur, jsWs c = false) →
    ∀ t ∈ splitWsGo s cur, ∀ c ∈ t, jsWs c = false := by
  intro s cur
  induction s, cur using splitWsGo.induct with
  | case1 cur =>
    intro hcur t ht
    rw [splitWsGo] at ht
    rw [List.mem_singleton] at ht
    subst ht
    intro c hc
    exact hcur c (List.mem_reverse.mp hc)
  | case2 c cs cur hws ih =>
    intro hcur t ht
    rw [splitWsGo, if_pos hws] at ht
    rcases List.mem_cons.mp ht with he | hm
    · subst he
      intro c hc
      exact hcur c (List.mem_reverse.mp hc)
    · exact ih (by intro c hc; cases hc) t hm
  | case3 c cs cur hws ih =>
    intro hcur t ht
    rw [splitWsGo, if_neg hws] at ht
    refine ih ?_ t ht
    intro x hx
    rcases List.mem_cons.mp hx with he | hm
    · subst he
      simpa using hws
    · exact hcur x hm

theorem jsSplitWs_wsFree (s : List Char) :
    ∀ t ∈ jsSplitWs s, ∀ c ∈ t, jsWs c = false :=
  splitWsGo_wsFree s [] (by intro c hc; cases hc)

theorem splitWsGo_append_wsFree (t : List Char) :
    ∀ (s cur : List Char), (∀ c ∈ t, jsWs c = false) →
    splitWsGo (t ++ s) cur = splitWsGo s (t.reverse ++ cur) := by
  induction t with
  | nil => intro s cur _; simp
  | cons a t ih =>
    intro s cur h
    have ha : jsWs a = false := h a (List.mem_cons_self _ _)
    rw [List.cons_append, splitWsGo, if_neg (by simp [ha])]
    rw [ih s (a :: cur) (fun c hc => h c (List.mem_cons_of_mem _ hc))]
    congr 1
    simp

theorem jsSplitWs_wsFree_token (t : List Char) (h : ∀ c ∈ t, jsWs c = false) :
    jsSplitWs t = [t] := by
  unfold jsSplitWs
  rw [show t = t ++ [] by simp, splitWsGo_append_wsFree t [] [] h]
  rw [splitWsGo]
  simp

theorem splitWsGo_space (s : List Char) (cur : List Char) :
    splitWsGo (' ' :: s) cur = cur.reverse :: splitWsGo (s.dropWhile jsWs) [] := by
  rw [splitWsGo, if_pos (by simp [jsWs])]

theorem filter_splitWsGo_dropWhile (s : List Char) :
    (splitWsGo (s.dropWhile jsWs) []).filter (fun t => !t.isEmpty)
      = (splitWsGo s []).filter (fun t => !t.isEmpty) := by
  cases s with
  | nil => rfl
  | cons c cs =>
    by_cases hc : jsWs c = true
    · rw [List.dropWhile_cons, if_pos hc]
      rw [show splitWsGo (c :: cs) [] = [].reverse :: splitWsGo (cs.dropWhile jsWs) [] from by
        rw [splitWsGo, if_pos hc]]
      simp
    · rw [List.dropWhile_cons, if_neg hc]


theorem filter_jsSplitWs_joinSpace : ∀ (ts : List (List Char)),
    (∀ t ∈ ts, ∀ c ∈ t, jsWs c = false) →
    (jsSplitWs (joinSpace ts)).filter (fun t => !t.isEmpty)
      = ts.filter (fun t => !t.isEmpty)
  | [], _ => by
    rw [show joinSpace [] = [] from rfl]
    rw [show jsSplitWs [] = [[]] from by unfold jsSplitWs; rw [splitWsGo]; rfl]
    rfl
  | [t], h => by
    rw [show joinSpace [t] = t from rfl,
      jsSplitWs_wsFree_token t (h t (List.mem_singleton.mpr rfl))]
  | t :: t2 :: rest, h => by
    have htws : ∀ c ∈ t, jsWs c = false := h t (List.mem_cons_self _ _)
    have hrest : ∀ x ∈ t2 :: rest, ∀ c ∈ x, jsWs c = false :=
      fun x hx => h x (List.mem_cons_of_mem _ hx)
    rw [show joinSpace (t :: t2 :: rest) = t ++ ' ' :: joinSpace (t2 :: rest) from rfl]
    unfold jsSplitWs
    rw [splitWsGo_append_wsFree t _ [] htws, splitWsGo_space]
    simp only [List.append_nil, List.reverse_reverse]
    rw [List.filter_cons, filter_splitWsGo_dropWhile]
    rw [show splitWsGo (joinSpace (t2 :: rest)) [] = jsSplitWs (joinSpace (t2 :: rest)) from rfl]
    rw [filter_jsSplitWs_joinSpace (t2 :: rest) hrest]
    simp only [List.filter_cons]

theorem chunkGroupsGo_flatten (m : Nat) : ∀ (ws : List (List Char)),
    (chunkGroupsGo m ws).flatten = ws := by
  intro ws
  induction ws using chunkGroupsGo.induct m with
  | case1 =>
    rw [chunkGroupsGo]
    rfl
  | case2 w rest ih =>
    rw [chunkGroupsGo, List.flatten_cons, ih, List.take_append_drop]

theorem chunkGroupsGo_ne_nil (m : Nat) : ∀ (ws : List (List Char)),
    ∀ g ∈ chunkGroupsGo m ws, g ≠ [] := by
  intro ws
  induction ws using chunkGroupsGo.induct m with
  | case1 =>
    intro g hg
    rw [chunkGroupsGo] at hg
    cases hg
  | case2 w rest ih =>
    intro g hg
    rw [chunkGroupsGo] at hg
    rcases List.mem_cons.mp hg with he | hm
    · subst he
      simp
    · exact ih g hm

theorem joinSpace_append (g h : List (List Char)) (hg : g ≠ []) (hh : h ≠ []) :
    joinSpace (g ++ h) = joinSpace g ++ ' ' :: joinSpace h := by
  induction g with
  | nil => exact absurd rfl hg
  | cons t g' ih =>
    cases g' with
    | nil =>
      cases h with
      | nil => exact absurd rfl hh
      | cons hh' ht => rfl
    | cons t2 g'' =>
      rw [show (t :: t2 :: g'') ++ h = t :: ((t2 :: g'') ++ h) from rfl]
      rw [show joinSpace (t :: ((t2 :: g'') ++ h))
          = t ++ ' ' :: joinSpace ((t2 :: g'') ++ h) from rfl]
      rw [ih (by simp)]
      rw [show joinSpace (t :: t2 :: g'') = t ++ ' ' :: joinSpace (t2 :: g'') from rfl]
      simp

theorem joinSpace_map_joinSpace : ∀ (gs : List (List (List Char))),
    (∀ g ∈ gs, g ≠ []) → joinSpace (gs.map joinSpace) = joinSpace gs.flatten
  | [], _ => rfl
  | [g], _ => by
    rw [show List.map joinSpace [g] = [joinSpace g] from rfl]
    rw [show joinSpace [joinSpace g] = joinSpace g from rfl]
    rw [List.flatten_cons]
    simp
  | g :: g2 :: rest, h => by
    have hg : g ≠ [] := h g (List.mem_cons_self _ _)
    have hrest : ∀ x ∈ g2 :: rest, x ≠ [] := fun x hx => h x (List.mem_cons_of_mem _ hx)
    have hfl : (g2 :: rest).flatten ≠ [] := by
      rw [List.flatten_cons]
      have := hrest g2 (List.mem_cons_self _ _)
      intro hc
      rw [List.append_eq_nil] at hc
      exact this hc.1
    calc joinSpace ((g :: g2 :: rest).map joinSpace)
        = joinSpace g ++ ' ' :: joinSpace ((g2 :: rest).map joinSpace) := rfl
      _ = joinSpace g ++ ' ' :: joinSpace (g2 :: rest).flatten := by
          rw [joinSpace_map_joinSpace (g2 :: rest) hrest]
      _ = joinSpace (g ++ (g2 :: rest).flatten) :=
          (joinSpace_append g (g2 :: rest).flatten hg hfl).symm
      _ = joinSpace (g :: g2 :: rest).flatten := by
          simp only [List.flatten_cons]


theorem all_of_dropWhile_all (p : Char → Bool) : ∀ (l : List Char),
    (∀ c ∈ l.dropWhile p, p c = true) → ∀ c ∈ l, p c = true := by
  intro l
  induction l with
  | nil => intro _ c hc; cases hc
  | cons a l ih =>
    intro h c hc
    by_cases ha : p a = true
    · rw [List.dropWhile_cons, if_pos ha] at h
      rcases List.mem_cons.mp hc with he | hm
      · subst he; exact ha
      · exact ih h c hm
    · rw [List.dropWhile_cons, if_neg ha] at h
      exact h c hc

theorem trimWs_eq_nil_all_ws {l : List Char} (h : trimWs l = []) :
    ∀ c ∈ l, jsWs c = true := by
  unfold trimWs at h
  rw [List.reverse_eq_nil_iff] at h
  have h2 : ∀ c ∈ (l.dropWhile jsWs).reverse, jsWs c = true :=
    all_of_dropWhile_all jsWs _ (by rw [h]; intro c hc; cases hc)
  have h3 : ∀ c ∈ l.dropWhile jsWs, jsWs c = true :=
    fun c hc => h2 c (List.mem_reverse.mpr hc)
  exact all_of_dropWhile_all jsWs l h3

theorem mem_joinSpace_of_mem : ∀ (g : List (List Char)) (t : List Char),
    t ∈ g → ∀ c ∈ t, c ∈ joinSpace g := by
  intro g
  induction g with
  | nil => intro t ht; cases ht
  | cons t' g' ih =>
    intro t ht c hc
    cases g' with
    | nil =>
      rw [List.mem_singleton] at ht
      subst ht
      exact hc
    | cons g2 rest =>
      rw [show joinSpace (t' :: g2 :: rest) = t' ++ ' ' :: joinSpace (g2 :: rest) from rfl]
      rcases List.mem_cons.mp ht with he | hm
      · subst he
        exact List.mem_append_left _ hc
      · exact List.mem_append_right _ (List.mem_cons_of_mem _ (ih t hm c hc))

theorem dropped_group_all_nil {g : List (List Char)}
    (hws : ∀ t ∈ g, ∀ c ∈ t, jsWs c = false)
    (h : trimWs (joinSpace g) = []) : ∀ t ∈ g, t = [] := by
  intro t ht
  cases t with
  | nil => rfl
  | cons c t' =>
    exfalso
    have hmem : c ∈ joinSpace g := mem_joinSpace_of_mem g _ ht c (List.mem_cons_self _ _)
    have hwst := trimWs_eq_nil_all_ws h c hmem
    have := hws _ ht c (List.mem_cons_self _ _)
    rw [this] at hwst
    cases hwst

theorem filter_flatten_comm (p : List Char → Bool) : ∀ (gs : List (List (List Char))),
    (gs.flatten).filter p = (gs.map (fun g => g.filter p)).flatten := by
  intro gs
  induction gs with
  | nil => rfl
  | cons g gs' ih =>
    rw [List.flatten_cons, List.filter_append, ih, List.map_cons, List.flatten_cons]

theorem filter_map_comm (f : List (List Char) → List Char)
    (p : List Char → Bool) : ∀ (l : List (List (List Char))),
    (l.map f).filter p = (l.filter (fun g => p (f g))).map f := by
  intro l
  induction l with
  | nil => rfl
  | cons g l ih =>
    rw [List.map_cons, List.filter_cons, List.filter_cons]
    by_cases hp : p (f g) = true
    · rw [if_pos hp, if_pos hp, List.map_cons, ih]
    · rw [if_neg hp, if_neg hp, ih]

theorem filter_flatten_dropped (q : List (List Char) → Bool) (pne : List Char → Bool) :
    ∀ (gs : List (List (List Char))),
    (∀ g ∈ gs, q g = false → ∀ t ∈ g, pne t = false) →
    ((gs.filter q).flatten).filter pne = (gs.flatten).filter pne := by
  intro gs
  induction gs with
  | nil => intro _; rfl
  | cons g gs' ih =>
    intro hq
    have hq' : ∀ x ∈ gs', q x = false → ∀ t ∈ x, pne t = false :=
      fun x hx => hq x (List.mem_cons_of_mem _ hx)
    rw [List.flatten_cons, List.filter_append, List.filter_cons]
    by_cases hg : q g = true
    · rw [if_pos hg, List.flatten_cons, List.filter_append, ih hq']
    · rw [if_neg hg, ih hq']
      have : g.filter pne = [] := by
        rw [List.filter_eq_nil_iff]
        intro t ht
        rw [hq g (List.mem_cons_self _ _) (by simpa using hg) t ht]
        simp
      rw [this, List.nil_append]


/-- C7: for every text and every positive unit size, joining the chunker's
output with a single separator and normalizing whitespace reproduces the
whitespace-normalized original text, and no returned chunk is empty after
trimming. -/
theorem chunk_round_trip (text : List Char) (n : Nat) (h : 0 < n) :
    normalizeWs (joinSpace (chunkText text n)) = normalizeWs text
  ∧ ∀ c ∈ chunkText text n, trimWs c ≠ [] := by
  obtain ⟨m, rfl⟩ : ∃ m, n = m + 1 := ⟨n - 1, by omega⟩
  have htok : ∀ t ∈ jsSplitWs text, ∀ c ∈ t, jsWs c = false := jsSplitWs_wsFree text
  have hgs_tok : ∀ g ∈ chunkGroupsGo m (jsSplitWs text), ∀ t ∈ g, ∀ c ∈ t, jsWs c = false := by
    intro g hg t ht
    have hmem : t ∈ (chunkGroupsGo m (jsSplitWs text)).flatten :=
      List.mem_flatten.mpr ⟨g, hg, ht⟩
    rw [chunkGroupsGo_flatten] at hmem
    exact htok t hmem
  constructor
  · have hchunk : chunkText text (m + 1)
        = ((chunkGroupsGo m (jsSplitWs text)).filter
            (fun g => !(trimWs (joinSpace g)).isEmpty)).map joinSpace := by
      unfold chunkText
      exact filter_map_comm joinSpace _ _
    have hkept_ne : ∀ g ∈ (chunkGroupsGo m (jsSplitWs text)).filter
        (fun g => !(trimWs (joinSpace g)).isEmpty), g ≠ [] := by
      intro g hg
      exact chunkGroupsGo_ne_nil m (jsSplitWs text) g (List.mem_of_mem_filter hg)
    have hkept_tok : ∀ t ∈ ((chunkGroupsGo m (jsSplitWs text)).filter
        (fun g => !(trimWs (joinSpace g)).isEmpty)).flatten, ∀ c ∈ t, jsWs c = false := by
      intro t ht
      obtain ⟨g, hg, htg⟩ := List.mem_flatten.mp ht
      exact hgs_tok g (List.mem_of_mem_filter hg) t htg
    have hdrop : ∀ g ∈ chunkGroupsGo m (jsSplitWs text),
        (!(trimWs (joinSpace g)).isEmpty) = false →
        ∀ t ∈ g, (!t.isEmpty) = false := by
      intro g hg hqg t ht
      have hnil : trimWs (joinSpace g) = [] := by
        simpa [List.isEmpty_iff] using hqg
      rw [dropped_group_all_nil (hgs_tok g hg) hnil t ht]
      rfl
    rw [hchunk]
    rw [joinSpace_map_joinSpace _ hkept_ne]
    unfold normalizeWs
    rw [filter_jsSplitWs_joinSpace _ hkept_tok]
    rw [filter_flatten_dropped _ _ _ hdrop]
    rw [chunkGroupsGo_flatten]
  · intro c hc hnil
    unfold chunkText at hc
    rw [List.mem_filter] at hc
    have := hc.2
    rw [hnil] at this
    cases this

theorem chunk_round_trip_witness :
    (0 : Nat) < 2
  ∧ (normalizeWs (joinSpace (chunkText " ab  cd ef ".data 2)) = normalizeWs " ab  cd ef ".data
    ∧ ∀ c ∈ chunkText " ab  cd ef ".data 2, trimWs c ≠ []) :=
  ⟨by decide, chunk_round_trip " ab  cd ef ".data 2 (by decide)⟩

end RagAssist
